import Mathlib

/-!
Verification of the HTTP/3 common connection core (`lib/http3/common.c`).

Bytes are modelled as natural numbers below 256 inside `List Nat`; C cursors
(`const uint8_t **src`) are modelled as list suffixes that functions return
alongside their result, mirroring the places where the C code writes back the
cursor.  Fallible functions return `Except H3Err`.
-/

/-- Error codes surfaced by the HTTP/3 layer (`H2O_HTTP3_ERROR_*`).  The
numeric values live in a header that is not part of this development; the
code only compares them for identity, so they are modelled symbolically.
`user` stands for any other error code returned by an external callback. -/
inductive H3Err where
  | incomplete
  | malformed_frame (ty : Nat)
  | closed_critical_stream
  | no_memory
  | user (code : Nat)
deriving DecidableEq, Repr

/-- maximum payload size excluding DATA frame (`MAX_FRAME_SIZE`). -/
def MAX_FRAME_SIZE : Nat := 16384

/-- `H2O_HTTP3_FRAME_TYPE_DATA` (0x00). -/
def H2O_HTTP3_FRAME_TYPE_DATA : Nat := 0

/-- `H2O_HTTP3_FRAME_TYPE_SETTINGS` (0x04). -/
def H2O_HTTP3_FRAME_TYPE_SETTINGS : Nat := 4

/-- `H2O_HTTP3_SETTINGS_HEADER_TABLE_SIZE` (0x0001). -/
def H2O_HTTP3_SETTINGS_HEADER_TABLE_SIZE : Nat := 1

/-- `H2O_HTTP3_DEFAULT_HEADER_TABLE_SIZE` (4096). -/
def H2O_HTTP3_DEFAULT_HEADER_TABLE_SIZE : Nat := 4096

/-- QUIC variable-length integer decoder (`quicly_decodev`).  The first byte's
top two bits select a 1/2/4/8-byte big-endian encoding whose low six bits of
the first byte contribute the most significant part.  Returns `none` where the
C function returns the `UINT64_MAX` sentinel (truncated input); on success it
returns the value together with the remaining bytes. -/
def quicly_decodev : List Nat → Option (Nat × List Nat)
  | [] => none
  | b :: rest =>
    if b ≤ 63 then
      some (b, rest)
    else
      let bytes_left := 2 ^ (b / 64) - 1
      if rest.length < bytes_left then
        none
      else
        some ((rest.take bytes_left).foldl (fun v c => v * 256 + c) (b % 64),
              rest.drop bytes_left)

theorem quicly_decodev_consumes {src rest : List Nat} {v : Nat}
    (h : quicly_decodev src = some (v, rest)) : rest.length < src.length := by
  match src with
  | [] => simp [quicly_decodev] at h
  | b :: tl =>
    simp only [quicly_decodev] at h
    split at h
    · cases h
      simp
    · split at h
      · cases h
      · cases h
        simp only [List.length_cons, List.length_drop]
        omega

/-- `ptls_decode16`: read a big-endian 16-bit integer.  Modelled from the
spec: the picotls helper is not part of this repository; the spec's
`{id: u16, value: varint}` pair format (network byte order) determines it. -/
def ptls_decode16 : List Nat → Option (Nat × List Nat)
  | b0 :: b1 :: rest => some (b0 * 256 + b1, rest)
  | _ => none

theorem ptls_decode16_consumes {src rest : List Nat} {v : Nat}
    (h : ptls_decode16 src = some (v, rest)) : rest.length + 2 = src.length := by
  match src with
  | [] => simp [ptls_decode16] at h
  | [b0] => simp [ptls_decode16] at h
  | b0 :: b1 :: tl =>
    simp only [ptls_decode16, Option.some.injEq, Prod.mk.injEq] at h
    simp [← h.2]

/-- `h2o_http3_read_frame_t`: a parsed frame.  `payload` is `none` where the
C code leaves the field unset (DATA frames). -/
structure h2o_http3_read_frame_t where
  length : Nat
  type : Nat
  header_size : Nat
  payload : Option (List Nat)
deriving DecidableEq, Repr

/-- `h2o_http3_read_frame`.  The input list is the cursor `*_src` (the bytes
up to `src_end`); the second component of the result is the cursor after the
call.  The C function works on a local copy of the cursor and stores it back
only on the success path, so every error path returns the original cursor. -/
def h2o_http3_read_frame (src0 : List Nat) :
    Except H3Err h2o_http3_read_frame_t × List Nat :=
  match quicly_decodev src0 with
  | none => (Except.error H3Err.incomplete, src0)
  | some (length, src1) =>
    match src1 with
    | [] => (Except.error H3Err.incomplete, src0)
    | ty :: src2 =>
      let header_size := src0.length - src2.length
      if ty ≠ H2O_HTTP3_FRAME_TYPE_DATA then
        if length ≥ MAX_FRAME_SIZE then
          (Except.error (H3Err.malformed_frame ty), src0)
        else if src2.length < length then
          (Except.error H3Err.incomplete, src0)
        else
          (Except.ok ⟨length, ty, header_size, some (src2.take length)⟩,
           src2.drop length)
      else
        (Except.ok ⟨length, ty, header_size, none⟩, src2)

/-- **C2**: `h2o_http3_read_frame` returns INCOMPLETE when the length varint
is truncated or no type byte follows it; for every frame type other than DATA
it returns MALFORMED_FRAME(type) when `length ≥ 16384`, returns INCOMPLETE
when fewer than `length` payload bytes remain, and otherwise sets the payload
and advances the cursor past the entire frame; for DATA it requires no
payload bytes, leaves the payload unset, and advances only past the header. -/
theorem c2_read_frame_contract (src : List Nat) :
    (quicly_decodev src = none →
      h2o_http3_read_frame src = (Except.error H3Err.incomplete, src)) ∧
    (∀ l, quicly_decodev src = some (l, []) →
      h2o_http3_read_frame src = (Except.error H3Err.incomplete, src)) ∧
    (∀ l ty rest, quicly_decodev src = some (l, ty :: rest) →
      ty ≠ H2O_HTTP3_FRAME_TYPE_DATA →
      ((l ≥ MAX_FRAME_SIZE →
         h2o_http3_read_frame src = (Except.error (H3Err.malformed_frame ty), src)) ∧
       (l < MAX_FRAME_SIZE → rest.length < l →
         h2o_http3_read_frame src = (Except.error H3Err.incomplete, src)) ∧
       (l < MAX_FRAME_SIZE → l ≤ rest.length →
         h2o_http3_read_frame src =
           (Except.ok ⟨l, ty, src.length - rest.length, some (rest.take l)⟩,
            rest.drop l)))) ∧
    (∀ l rest, quicly_decodev src = some (l, H2O_HTTP3_FRAME_TYPE_DATA :: rest) →
      h2o_http3_read_frame src =
        (Except.ok ⟨l, H2O_HTTP3_FRAME_TYPE_DATA, src.length - rest.length, none⟩,
         rest)) := by
  refine ⟨?_, ?_, ?_, ?_⟩
  · intro h
    simp [h2o_http3_read_frame, h]
  · intro l h
    simp [h2o_http3_read_frame, h]
  · intro l ty rest h hty
    refine ⟨?_, ?_, ?_⟩
    · intro hge
      simp [h2o_http3_read_frame, h, hty, hge]
    · intro hlt hrem
      have h1 : ¬ (l ≥ MAX_FRAME_SIZE) := by omega
      simp [h2o_http3_read_frame, h, hty, h1, hrem]
    · intro hlt hrem
      have h1 : ¬ (l ≥ MAX_FRAME_SIZE) := by omega
      have h2 : ¬ (rest.length < l) := by omega
      simp [h2o_http3_read_frame, h, hty, h1, h2]
  · intro l rest h
    simp [h2o_http3_read_frame, h, H2O_HTTP3_FRAME_TYPE_DATA]

theorem c2_read_frame_contract_witness :
    h2o_http3_read_frame [1, 13, 0] =
      (Except.ok ⟨1, 13, 2, some [0]⟩, ([] : List Nat)) ∧
    h2o_http3_read_frame [5, 0, 104] = (Except.ok ⟨5, 0, 2, none⟩, [104]) ∧
    h2o_http3_read_frame [1] = (Except.error H3Err.incomplete, [1]) := by
  refine ⟨?_, ?_, ?_⟩
  · exact ((c2_read_frame_contract [1, 13, 0]).2.2.1 1 13 [0] (by decide)
      (by decide)).2.2 (by decide) (by decide)
  · exact (c2_read_frame_contract [5, 0, 104]).2.2.2 5 [104] (by decide)
  · exact (c2_read_frame_contract [1]).2.1 1 (by decide)

/-- **C9**: whenever `h2o_http3_read_frame` returns a non-zero result —
INCOMPLETE or MALFORMED_FRAME alike — the caller's cursor is left exactly
where it was; the cursor is advanced only on a success return. -/
theorem c9_read_frame_error_preserves_cursor (src : List Nat) (e : H3Err)
    (h : (h2o_http3_read_frame src).1 = Except.error e) :
    (h2o_http3_read_frame src).2 = src := by
  rcases hd : quicly_decodev src with _ | ⟨l, src1⟩
  · simp [h2o_http3_read_frame, hd]
  · cases src1 with
    | nil => simp [h2o_http3_read_frame, hd]
    | cons ty src2 =>
      by_cases hty : ty = H2O_HTTP3_FRAME_TYPE_DATA
      · simp [h2o_http3_read_frame, hd, hty] at h
      · by_cases hge : l ≥ MAX_FRAME_SIZE
        · simp [h2o_http3_read_frame, hd, hty, hge]
        · by_cases hrem : src2.length < l
          · simp [h2o_http3_read_frame, hd, hty, hge, hrem]
          · simp [h2o_http3_read_frame, hd, hty, hge, hrem] at h

theorem c9_read_frame_error_preserves_cursor_witness :
    (h2o_http3_read_frame [1]).1 = Except.error H3Err.incomplete ∧
    (h2o_http3_read_frame [1]).2 = [1] :=
  ⟨rfl, c9_read_frame_error_preserves_cursor [1] H3Err.incomplete rfl⟩

/-- `control_stream_handle_input`.  `σ` is the connection state as the HTTP
layer sees it; `hrs` models `h2o_http3_has_received_settings` (defined in a
header outside this repository as the presence of the QPACK encoder); `cb`
models the external `conn->callbacks->handle_control_stream_frame` and
receives the frame's type, payload and length.  The result carries the
return value, the updated connection, and the cursor after the call. -/
def control_stream_handle_input {σ : Type}
    (hrs : σ → Bool)
    (cb : σ → Nat → Option (List Nat) → Nat → Except H3Err Unit × σ)
    (conn : σ) (src : List Nat) : Except H3Err Unit × σ × List Nat :=
  match h2o_http3_read_frame src with
  | (Except.error e, _) =>
    if e = H3Err.incomplete then (Except.ok (), conn, src)
    else (Except.error e, conn, src)
  | (Except.ok frame, rest) =>
    if hrs conn = decide (frame.type = H2O_HTTP3_FRAME_TYPE_SETTINGS) ∨
       frame.type = H2O_HTTP3_FRAME_TYPE_DATA then
      (Except.error (H3Err.malformed_frame frame.type), conn, rest)
    else
      ((cb conn frame.type frame.payload frame.length).1,
       (cb conn frame.type frame.payload frame.length).2, rest)

/-- **C1**: for every frame delivered on the ingress control stream, the
handler fails the connection with MALFORMED_FRAME(frame.type) iff
`has_received_settings(conn) == (frame.type == SETTINGS)` or
`frame.type == DATA`; otherwise the frame is handed to the HTTP-layer
control callback.  The predicate is equivalent to: the first accepted frame
must be SETTINGS, a SETTINGS frame after the first is rejected, DATA is
always rejected, and any other frame after SETTINGS is passed through. -/
theorem c1_control_frame_gate {σ : Type} (hrs : σ → Bool)
    (cb : σ → Nat → Option (List Nat) → Nat → Except H3Err Unit × σ)
    (conn : σ) (src rest : List Nat) (f : h2o_http3_read_frame_t)
    (hread : h2o_http3_read_frame src = (Except.ok f, rest)) :
    (control_stream_handle_input hrs cb conn src =
      if hrs conn = decide (f.type = H2O_HTTP3_FRAME_TYPE_SETTINGS) ∨
         f.type = H2O_HTTP3_FRAME_TYPE_DATA then
        (Except.error (H3Err.malformed_frame f.type), conn, rest)
      else
        ((cb conn f.type f.payload f.length).1,
         (cb conn f.type f.payload f.length).2, rest)) ∧
    ((hrs conn = decide (f.type = H2O_HTTP3_FRAME_TYPE_SETTINGS) ∨
      f.type = H2O_HTTP3_FRAME_TYPE_DATA) ↔
     ((hrs conn = false ∧ f.type ≠ H2O_HTTP3_FRAME_TYPE_SETTINGS) ∨
      (hrs conn = true ∧ f.type = H2O_HTTP3_FRAME_TYPE_SETTINGS) ∨
      f.type = H2O_HTTP3_FRAME_TYPE_DATA)) := by
  constructor
  · simp [control_stream_handle_input, hread]
  · cases hb : hrs conn <;> by_cases ht : f.type = H2O_HTTP3_FRAME_TYPE_SETTINGS <;>
      simp [ht]

theorem c1_control_frame_gate_witness :
    control_stream_handle_input (fun b : Bool => b)
        (fun c ty _ _ => (Except.ok (), c || (ty == H2O_HTTP3_FRAME_TYPE_SETTINGS)))
        false [0, 4] =
      (Except.ok (), true, ([] : List Nat)) := by
  have h := (c1_control_frame_gate (fun b : Bool => b)
      (fun c ty _ _ => (Except.ok (), c || (ty == H2O_HTTP3_FRAME_TYPE_SETTINGS)))
      false [0, 4] [] ⟨0, 4, 2, some []⟩ rfl).1
  simpa using h

/-- Connection state used to exercise the control stream: whether SETTINGS
has been received (the QPACK encoder exists) plus the frame types delivered
to the HTTP-layer callback so far. -/
structure CtrlConn where
  has_received_settings : Bool
  delivered : List Nat
deriving DecidableEq, Repr

/-- Modelled from the spec: the HTTP-layer `handle_control_stream_frame`
callback is not part of this repository.  Per the spec it accepts the frame
and, on SETTINGS, instantiates the QPACK encoder, which makes
`has_received_settings` true afterwards.  Delivered frame types are
recorded so that theorems can observe them. -/
def record_control_frame (c : CtrlConn) (ty : Nat) (payload : Option (List Nat))
    (len : Nat) : Except H3Err Unit × CtrlConn :=
  (Except.ok (),
   ⟨c.has_received_settings || (ty == H2O_HTTP3_FRAME_TYPE_SETTINGS),
    c.delivered ++ [ty]⟩)

/-- **C5** fails on the code: a single invocation of
`control_stream_handle_input` on input holding a complete SETTINGS frame
`[0x00, 0x04]` followed by a complete MAX_PUSH_ID frame `[0x01, 0x0D, 0x00]`
delivers only the SETTINGS frame to the callback (there is no read loop);
the MAX_PUSH_ID frame's type 0x0D is not delivered and its bytes are left
unconsumed. -/
theorem c5_counterexample_single_invocation :
    control_stream_handle_input (fun c : CtrlConn => c.has_received_settings)
        record_control_frame ⟨false, []⟩ [0, 4, 1, 13, 0] =
      (Except.ok (), ⟨true, [4]⟩, [1, 13, 0]) ∧
    13 ∉ (control_stream_handle_input (fun c : CtrlConn => c.has_received_settings)
        record_control_frame ⟨false, []⟩ [0, 4, 1, 13, 0]).2.1.delivered :=
  ⟨rfl, by decide⟩

/-- **C5 (amended)**: a single invocation of the control-frame handler reads
at most one frame: when the input begins with a complete frame that passes
the SETTINGS gate, exactly that one frame is handed to the HTTP-layer
callback and the cursor advances past it only, leaving any further complete
frames unconsumed; when the first frame is incomplete the handler returns
success with nothing consumed.  In particular, on a complete SETTINGS frame
followed by a complete MAX_PUSH_ID frame only SETTINGS is processed in that
invocation. -/
theorem c5_amended_single_frame (conn : CtrlConn) (src rest : List Nat)
    (f : h2o_http3_read_frame_t)
    (hread : h2o_http3_read_frame src = (Except.ok f, rest))
    (hgate : ¬ (conn.has_received_settings =
                  decide (f.type = H2O_HTTP3_FRAME_TYPE_SETTINGS) ∨
                f.type = H2O_HTTP3_FRAME_TYPE_DATA)) :
    control_stream_handle_input (fun c : CtrlConn => c.has_received_settings)
        record_control_frame conn src =
      (Except.ok (),
       ⟨conn.has_received_settings || (f.type == H2O_HTTP3_FRAME_TYPE_SETTINGS),
        conn.delivered ++ [f.type]⟩,
       rest) ∧
    (∀ src2, (h2o_http3_read_frame src2).1 = Except.error H3Err.incomplete →
      control_stream_handle_input (fun c : CtrlConn => c.has_received_settings)
          record_control_frame conn src2 = (Except.ok (), conn, src2)) := by
  constructor
  · simp [control_stream_handle_input, hread, hgate, record_control_frame]
  · intro src2 hinc
    rcases h2 : h2o_http3_read_frame src2 with ⟨r, cur⟩
    rw [h2] at hinc
    simp at hinc
    cases r with
    | error e =>
      simp at hinc
      simp [control_stream_handle_input, h2, hinc]
    | ok f2 => simp at hinc

theorem c5_amended_single_frame_witness :
    control_stream_handle_input (fun c : CtrlConn => c.has_received_settings)
        record_control_frame ⟨false, []⟩ [0, 4, 1, 13, 0] =
      (Except.ok (), ⟨true, [4]⟩, [1, 13, 0]) := by
  have h := (c5_amended_single_frame ⟨false, []⟩ [0, 4, 1, 13, 0] [1, 13, 0]
      ⟨0, 4, 2, some []⟩ rfl (by decide)).1
  simpa using h

/-- `h2o_buffer_t`: `bytes` is the allocated region, so the capacity is
`bytes.length`; `size` is the number of live bytes at the front. -/
structure H2OBuffer where
  bytes : List Nat
  size : Nat
deriving DecidableEq, Repr

/-- Modelled from the spec: `h2o_buffer_reserve` lives in `lib/common/memory.c`,
which is not part of this repository.  Per the spec it ensures capacity for
the requested number of bytes, preserving the existing contents, and fails
(leaving the buffer unchanged) when growth is impossible; `memLimit` is the
largest capacity the allocator can provide. -/
def h2o_buffer_reserve (memLimit : Nat) (buf : H2OBuffer) (newCap : Nat) :
    H2OBuffer :=
  if newCap ≤ memLimit then
    { buf with bytes := buf.bytes ++ List.replicate (newCap - buf.bytes.length) 0 }
  else
    buf

/-- `memcpy((*buf)->bytes + off, src, len)`: overwrite `src.length` bytes of
`dst` starting at absolute offset `off`. -/
def store_bytes (dst : List Nat) (off : Nat) (src : List Nat) : List Nat :=
  dst.take off ++ src ++ dst.drop (off + src.length)

/-- `h2o_http3_update_recvbuf`.  The C function updates `*buf` in place and
returns an error code; here the updated buffer is the second component. -/
def h2o_http3_update_recvbuf (memLimit : Nat) (buf : H2OBuffer) (off : Nat)
    (src : List Nat) : Except H3Err Unit × H2OBuffer :=
  let new_size := off + src.length
  if buf.size < new_size then
    let buf1 := h2o_buffer_reserve memLimit buf new_size
    if buf1.bytes.length < new_size then
      (Except.error H3Err.no_memory, buf1)
    else
      (Except.ok (), { bytes := store_bytes buf1.bytes off src, size := new_size })
  else
    (Except.ok (), { bytes := store_bytes buf.bytes off src, size := new_size })

/-- Pad a list with zeros up to length `n` (no-op when already long enough). -/
def padTo (l : List Nat) (n : Nat) : List Nat :=
  l ++ List.replicate (n - l.length) 0

theorem padTo_length (l : List Nat) (n : Nat) :
    (padTo l n).length = max l.length n := by
  simp [padTo]
  omega

theorem store_bytes_length {dst : List Nat} {off : Nat} {src : List Nat}
    (h : off + src.length ≤ dst.length) :
    (store_bytes dst off src).length = dst.length := by
  simp [store_bytes]
  omega

theorem padTo_getElem (l : List Nat) (n i : Nat) :
    (padTo l n)[i]? =
      if i < l.length then l[i]?
      else if i < n then some 0 else none := by
  simp only [padTo, List.getElem?_append, List.getElem?_replicate]
  split_ifs <;> first
    | rfl
    | omega
    | exact List.getElem?_eq_none (by omega)

theorem store_bytes_getElem {dst : List Nat} {off : Nat} {src : List Nat}
    (h : off + src.length ≤ dst.length) (i : Nat) :
    (store_bytes dst off src)[i]? =
      if off ≤ i ∧ i < off + src.length then src[i - off]?
      else dst[i]? := by
  have hto : (List.take off dst).length = off := by simp; omega
  simp only [store_bytes, List.getElem?_append, List.getElem?_take,
    List.getElem?_drop, List.length_append, hto]
  split_ifs <;> first
    | rfl
    | omega
    | (congr 1; omega)

theorem update_recvbuf_ok_normal_form (m : Nat) (b : H2OBuffer) (off : Nat)
    (s : List Nat) (hinv : b.size ≤ b.bytes.length)
    (hok : (h2o_http3_update_recvbuf m b off s).1 = Except.ok ()) :
    (h2o_http3_update_recvbuf m b off s).2 =
      ⟨store_bytes (padTo b.bytes (off + s.length)) off s, off + s.length⟩ := by
  by_cases h1 : b.size < off + s.length
  · by_cases h2 : off + s.length ≤ m
    · have hpad : h2o_buffer_reserve m b (off + s.length) =
          ⟨padTo b.bytes (off + s.length), b.size⟩ := by
        simp [h2o_buffer_reserve, h2, padTo]
      have hlen : ¬ ((padTo b.bytes (off + s.length)).length < off + s.length) := by
        rw [padTo_length]
        omega
      simp [h2o_http3_update_recvbuf, h1, hlen, hpad]
    · have hres : h2o_buffer_reserve m b (off + s.length) = b := by
        simp [h2o_buffer_reserve, h2]
      by_cases h3 : b.bytes.length < off + s.length
      · exfalso
        simp [h2o_http3_update_recvbuf, h1, hres, h3] at hok
      · have hz : off + s.length - b.bytes.length = 0 := by omega
        have hpad2 : padTo b.bytes (off + s.length) = b.bytes := by
          simp [padTo, hz]
        simp [h2o_http3_update_recvbuf, h1, hres, h3, hpad2]
  · have hz : off + s.length - b.bytes.length = 0 := by omega
    have hpad2 : padTo b.bytes (off + s.length) = b.bytes := by
      simp [padTo, hz]
    simp [h2o_http3_update_recvbuf, h1, hpad2]

theorem update_recvbuf_ok_length (m : Nat) (b : H2OBuffer) (off : Nat)
    (s : List Nat) (hinv : b.size ≤ b.bytes.length)
    (hok : (h2o_http3_update_recvbuf m b off s).1 = Except.ok ()) :
    (h2o_http3_update_recvbuf m b off s).2.bytes.length =
      max b.bytes.length (off + s.length) := by
  rw [update_recvbuf_ok_normal_form m b off s hinv hok]
  show (store_bytes (padTo b.bytes (off + s.length)) off s).length = _
  rw [store_bytes_length (by rw [padTo_length]; omega), padTo_length]

theorem store_bytes_store_bytes {d : List Nat} {o : Nat} {s : List Nat}
    (h : o + s.length ≤ d.length) :
    store_bytes (store_bytes d o s) o s = store_bytes d o s := by
  apply List.ext_getElem?
  intro i
  rw [store_bytes_getElem (by rw [store_bytes_length h]; exact h),
      store_bytes_getElem h]
  split_ifs <;> rfl

/-- **C3** fails on the code: `h2o_http3_update_recvbuf` executes
`(*buf)->size = new_size` unconditionally, so the size becomes
`offset+len` rather than `max(buf.size, offset+len)` — a write ending below
the current size shrinks it — and two successful writes to non-overlapping
ranges leave different sizes depending on their order. -/
theorem c3_counterexample_size_not_max :
    (h2o_http3_update_recvbuf 100 ⟨[9, 9, 9, 9, 9], 5⟩ 0 [1, 2]).2.size = 2 ∧
    max 5 2 ≠ 2 ∧
    (h2o_http3_update_recvbuf 100
        (h2o_http3_update_recvbuf 100 ⟨[], 0⟩ 0 [1, 2]).2 3 [4, 5]).2.size = 5 ∧
    (h2o_http3_update_recvbuf 100
        (h2o_http3_update_recvbuf 100 ⟨[], 0⟩ 3 [4, 5]).2 0 [1, 2]).2.size = 2 :=
  ⟨rfl, by decide, rfl, rfl⟩

/-- **C3 (amended)**: every successful call copies `len` bytes to the
absolute offset and sets `buf.size = offset+len` unconditionally (possibly
shrinking it); for two successful writes to non-overlapping offset ranges
applied in either order the resulting buffer bytes are the same, while the
resulting size is the `offset+len` of whichever write was applied last;
re-applying an identical write immediately succeeds and leaves the buffer
unchanged. -/
theorem c3_amended_update_recvbuf :
    (∀ m b off s, b.size ≤ b.bytes.length →
      (h2o_http3_update_recvbuf m b off s).1 = Except.ok () →
      (h2o_http3_update_recvbuf m b off s).2 =
        ⟨store_bytes (padTo b.bytes (off + s.length)) off s, off + s.length⟩) ∧
    (∀ m b o1 s1 o2 s2, b.size ≤ b.bytes.length →
      (o1 + s1.length ≤ o2 ∨ o2 + s2.length ≤ o1) →
      (h2o_http3_update_recvbuf m b o1 s1).1 = Except.ok () →
      (h2o_http3_update_recvbuf m (h2o_http3_update_recvbuf m b o1 s1).2 o2 s2).1 =
        Except.ok () →
      (h2o_http3_update_recvbuf m b o2 s2).1 = Except.ok () →
      (h2o_http3_update_recvbuf m (h2o_http3_update_recvbuf m b o2 s2).2 o1 s1).1 =
        Except.ok () →
      ((h2o_http3_update_recvbuf m (h2o_http3_update_recvbuf m b o1 s1).2 o2 s2).2.bytes =
         (h2o_http3_update_recvbuf m (h2o_http3_update_recvbuf m b o2 s2).2 o1 s1).2.bytes ∧
       (h2o_http3_update_recvbuf m (h2o_http3_update_recvbuf m b o1 s1).2 o2 s2).2.size =
         o2 + s2.length ∧
       (h2o_http3_update_recvbuf m (h2o_http3_update_recvbuf m b o2 s2).2 o1 s1).2.size =
         o1 + s1.length)) ∧
    (∀ m b off s, b.size ≤ b.bytes.length →
      (h2o_http3_update_recvbuf m b off s).1 = Except.ok () →
      h2o_http3_update_recvbuf m (h2o_http3_update_recvbuf m b off s).2 off s =
        (Except.ok (), (h2o_http3_update_recvbuf m b off s).2)) := by
  refine ⟨update_recvbuf_ok_normal_form, ?_, ?_⟩
  · intro m b o1 s1 o2 s2 hinv hdisj hok1 hok12 hok2 hok21
    have h1 := update_recvbuf_ok_normal_form m b o1 s1 hinv hok1
    have h2 := update_recvbuf_ok_normal_form m b o2 s2 hinv hok2
    rw [h1] at hok12 ⊢
    rw [h2] at hok21 ⊢
    have hd1len : (store_bytes (padTo b.bytes (o1 + s1.length)) o1 s1).length =
        max b.bytes.length (o1 + s1.length) := by
      rw [store_bytes_length (by rw [padTo_length]; omega), padTo_length]
    have hd2len : (store_bytes (padTo b.bytes (o2 + s2.length)) o2 s2).length =
        max b.bytes.length (o2 + s2.length) := by
      rw [store_bytes_length (by rw [padTo_length]; omega), padTo_length]
    have hinv1 : (⟨store_bytes (padTo b.bytes (o1 + s1.length)) o1 s1,
        o1 + s1.length⟩ : H2OBuffer).size ≤
        (⟨store_bytes (padTo b.bytes (o1 + s1.length)) o1 s1,
          o1 + s1.length⟩ : H2OBuffer).bytes.length := by
      show o1 + s1.length ≤ _
      rw [hd1len]
      omega
    have hinv2 : (⟨store_bytes (padTo b.bytes (o2 + s2.length)) o2 s2,
        o2 + s2.length⟩ : H2OBuffer).size ≤
        (⟨store_bytes (padTo b.bytes (o2 + s2.length)) o2 s2,
          o2 + s2.length⟩ : H2OBuffer).bytes.length := by
      show o2 + s2.length ≤ _
      rw [hd2len]
      omega
    have h12 := update_recvbuf_ok_normal_form m _ o2 s2 hinv1 hok12
    have h21 := update_recvbuf_ok_normal_form m _ o1 s1 hinv2 hok21
    rw [h12, h21]
    refine ⟨?_, rfl, rfl⟩
    show store_bytes (padTo (store_bytes (padTo b.bytes (o1 + s1.length)) o1 s1)
        (o2 + s2.length)) o2 s2 =
      store_bytes (padTo (store_bytes (padTo b.bytes (o2 + s2.length)) o2 s2)
        (o1 + s1.length)) o1 s1
    apply List.ext_getElem?
    intro i
    have hb12 : o2 + s2.length ≤
        (padTo (store_bytes (padTo b.bytes (o1 + s1.length)) o1 s1)
          (o2 + s2.length)).length := by
      rw [padTo_length]
      omega
    have hb21 : o1 + s1.length ≤
        (padTo (store_bytes (padTo b.bytes (o2 + s2.length)) o2 s2)
          (o1 + s1.length)).length := by
      rw [padTo_length]
      omega
    have hbd1 : o1 + s1.length ≤ (padTo b.bytes (o1 + s1.length)).length := by
      rw [padTo_length]
      omega
    have hbd2 : o2 + s2.length ≤ (padTo b.bytes (o2 + s2.length)).length := by
      rw [padTo_length]
      omega
    rw [store_bytes_getElem hb12 i, store_bytes_getElem hb21 i,
        padTo_getElem, padTo_getElem,
        store_bytes_getElem hbd1 i, store_bytes_getElem hbd2 i,
        padTo_getElem, padTo_getElem, hd1len, hd2len]
    split_ifs <;> first
      | rfl
      | omega
  · intro m b off s hinv hok
    have hnf := update_recvbuf_ok_normal_form m b off s hinv hok
    rw [hnf]
    have hb : off + s.length ≤ (padTo b.bytes (off + s.length)).length := by
      rw [padTo_length]
      omega
    have hstep : h2o_http3_update_recvbuf m
        ⟨store_bytes (padTo b.bytes (off + s.length)) off s, off + s.length⟩ off s =
        (Except.ok (),
         ⟨store_bytes (store_bytes (padTo b.bytes (off + s.length)) off s) off s,
          off + s.length⟩) := by
      simp [h2o_http3_update_recvbuf]
    rw [hstep, store_bytes_store_bytes hb]

theorem c3_amended_update_recvbuf_witness :
    (h2o_http3_update_recvbuf 100
        (h2o_http3_update_recvbuf 100 ⟨[], 0⟩ 0 [1, 2]).2 3 [4, 5]).2.bytes =
      (h2o_http3_update_recvbuf 100
        (h2o_http3_update_recvbuf 100 ⟨[], 0⟩ 3 [4, 5]).2 0 [1, 2]).2.bytes :=
  ((c3_amended_update_recvbuf.2.1 100 ⟨[], 0⟩ 0 [1, 2] 3 [4, 5]
      (by decide) (Or.inl (by decide)) rfl rfl rfl rfl)).1

/-- **C10**: when `h2o_http3_update_recvbuf` fails with NO_MEMORY because
the buffer could not be grown to hold `offset+len` bytes, the buffer's size
field and its existing bytes in `[0, size)` are left unchanged — no partial
copy is performed. -/
theorem c10_no_memory_preserves_buffer (m : Nat) (b : H2OBuffer) (off : Nat)
    (s : List Nat) (e : H3Err)
    (herr : (h2o_http3_update_recvbuf m b off s).1 = Except.error e) :
    (h2o_http3_update_recvbuf m b off s).2.size = b.size ∧
    (h2o_http3_update_recvbuf m b off s).2.bytes.take b.size =
      b.bytes.take b.size := by
  have hsame : (h2o_http3_update_recvbuf m b off s).2 = b := by
    by_cases h1 : b.size < off + s.length
    · by_cases h2 : off + s.length ≤ m
      · exfalso
        have hpad : h2o_buffer_reserve m b (off + s.length) =
            ⟨padTo b.bytes (off + s.length), b.size⟩ := by
          simp [h2o_buffer_reserve, h2, padTo]
        have hlen : ¬ ((padTo b.bytes (off + s.length)).length < off + s.length) := by
          rw [padTo_length]
          omega
        simp [h2o_http3_update_recvbuf, h1, hpad, hlen] at herr
      · have hres : h2o_buffer_reserve m b (off + s.length) = b := by
          simp [h2o_buffer_reserve, h2]
        by_cases h3 : b.bytes.length < off + s.length
        · simp [h2o_http3_update_recvbuf, h1, hres, h3]
        · exfalso
          simp [h2o_http3_update_recvbuf, h1, hres, h3] at herr
    · exfalso
      simp [h2o_http3_update_recvbuf, h1] at herr
  rw [hsame]
  exact ⟨rfl, rfl⟩

theorem c10_no_memory_preserves_buffer_witness :
    (h2o_http3_update_recvbuf 3 ⟨[], 0⟩ 2 [7, 7]).1 = Except.error H3Err.no_memory ∧
    (h2o_http3_update_recvbuf 3 ⟨[], 0⟩ 2 [7, 7]).2.size = 0 :=
  ⟨rfl, (c10_no_memory_preserves_buffer 3 ⟨[], 0⟩ 2 [7, 7] H3Err.no_memory rfl).1⟩

/-- `egress_unistream_on_send_emit`.  `sendbuf` holds the send buffer's live
bytes (so `sendbuf->size = sendbuf.length`); `off` and `lenIn` are the `off`
and incoming `*len` arguments.  The C comparison `*len >= size - off` is on
`size_t`, so the subtraction wraps modulo 2^64.  The result is the written
`*len`, `*wrote_all`, and the bytes the `memcpy` places into `dst`: the code
copies from `stream->sendbuf->bytes`, i.e. from offset 0. -/
def egress_unistream_on_send_emit (sendbuf : List Nat) (off lenIn : Nat) :
    Nat × Bool × List Nat :=
  let avail := (sendbuf.length + 2 ^ 64 - off) % 2 ^ 64
  if lenIn ≥ avail then
    (avail, true, sendbuf.take avail)
  else
    (lenIn, false, sendbuf.take lenIn)

/-- **C4** is contradicted by the code: on `sendbuf = [1, 2]`, `off = 1`,
`*len = 1` the emit callback reports `wrote_all` (`off + *len` reaches the
end, as the claim states) but copies `[1]` — the byte at offset 0 — while
the bytes starting at byte `off` are `[2]`.  The `memcpy` reads from
`sendbuf->bytes` instead of `sendbuf->bytes + off`, although both the
emitted length and `wrote_all` are computed from `off`. -/
theorem c4_send_emit_copies_from_start :
    egress_unistream_on_send_emit [1, 2] 1 1 = (1, true, [1]) ∧
    ([1, 2].drop 1).take 1 = [2] ∧
    (egress_unistream_on_send_emit [1, 2] 1 1).2.2 ≠ ([1, 2].drop 1).take 1 := by
  refine ⟨by decide, by decide, by decide⟩

/-- `quicly_recvstate`: the two observations the code makes of the QUIC
stream's receive state (`quicly_recvstate_transfer_complete` and
`quicly_recvstate_bytes_available`). -/
structure RecvState where
  transfer_complete : Bool
  bytes_available : Nat
deriving DecidableEq, Repr

/-- `ingress_unistream_on_receive_reset`: returns CLOSED_CRITICAL_STREAM
whatever the peer's error code. -/
def ingress_unistream_on_receive_reset (err : Int) : H3Err :=
  H3Err.closed_critical_stream

/-- `ingress_unistream_on_receive`.  Saves the received bytes via
`h2o_http3_update_recvbuf`, fails with CLOSED_CRITICAL_STREAM when the
receive state is transfer-complete, then presents the contiguous available
prefix to `handle_input` and consumes exactly the bytes the handler advanced
over (`h2o_buffer_consume` drops them from the front; it lives outside this
repository and is modelled from the spec's description). -/
def ingress_unistream_on_receive {σ : Type} (memLimit : Nat)
    (handle_input : σ → List Nat → Except H3Err Unit × σ × List Nat)
    (conn : σ) (recvbuf : H2OBuffer) (rs : RecvState) (off : Nat)
    (input : List Nat) : Except H3Err Unit × σ × H2OBuffer :=
  match h2o_http3_update_recvbuf memLimit recvbuf off input with
  | (Except.error e, buf) => (Except.error e, conn, buf)
  | (Except.ok _, buf) =>
    if rs.transfer_complete then
      (Except.error H3Err.closed_critical_stream, conn, buf)
    else
      let window := buf.bytes.take rs.bytes_available
      if window.length = 0 then
        (Except.ok (), conn, buf)
      else
        let r := handle_input conn window
        let bytes_consumed := window.length - r.2.2.length
        (r.1, r.2.1,
         if bytes_consumed ≠ 0 then
           ⟨buf.bytes.drop bytes_consumed, buf.size - bytes_consumed⟩
         else buf)

/-- **C7**: a RESET received on an ingress unistream unconditionally yields
CLOSED_CRITICAL_STREAM, and receiving bytes while the stream's receive state
is transfer-complete (the peer sent FIN) yields CLOSED_CRITICAL_STREAM,
provided the arriving bytes could be buffered (the buffer update precedes
the check in the code). -/
theorem c7_critical_stream_errors {σ : Type} (memLimit : Nat)
    (handle_input : σ → List Nat → Except H3Err Unit × σ × List Nat)
    (conn : σ) (recvbuf : H2OBuffer) (rs : RecvState) (off : Nat)
    (input : List Nat) (err : Int)
    (hT : rs.transfer_complete = true)
    (hok : (h2o_http3_update_recvbuf memLimit recvbuf off input).1 = Except.ok ()) :
    ingress_unistream_on_receive_reset err = H3Err.closed_critical_stream ∧
    (ingress_unistream_on_receive memLimit handle_input conn recvbuf rs off
      input).1 = Except.error H3Err.closed_critical_stream := by
  refine ⟨rfl, ?_⟩
  rcases h : h2o_http3_update_recvbuf memLimit recvbuf off input with ⟨r, buf⟩
  rw [h] at hok
  simp only at hok
  cases r with
  | error e => exact absurd hok (by simp)
  | ok u => simp [ingress_unistream_on_receive, h, hT]

theorem c7_critical_stream_errors_witness :
    (ingress_unistream_on_receive 100
        (fun (c : Unit) (l : List Nat) => (Except.ok (), c, l))
        () ⟨[], 0⟩ ⟨true, 0⟩ 0 [1]).1 = Except.error H3Err.closed_critical_stream :=
  (c7_critical_stream_errors 100 (fun (c : Unit) (l : List Nat) => (Except.ok (), c, l))
    () ⟨[], 0⟩ ⟨true, 0⟩ 0 [1] 0 rfl rfl).2

/-- The QPACK encoder as instantiated by `h2o_qpack_create_encoder`:
the header-table-size and max-blocked-streams parameters it was created
with (its internals are outside this repository). -/
structure QpackEncoder where
  header_table_size : Nat
  max_blocked : Nat
deriving DecidableEq, Repr

/-- The `while (src != src_end)` loop of `h2o_http3_handle_settings_frame`:
reads `{id: u16, value: varint}` pairs, keeping only HEADER_TABLE_SIZE
(whose value the C code truncates with a `(uint32_t)` cast); `none` is the
`goto Malformed` path. -/
def settings_loop (src : List Nat) (header_table_size : Nat) : Option Nat :=
  if src = [] then some header_table_size
  else
    match h16 : ptls_decode16 src with
    | none => none
    | some (id, src1) =>
      match hv : quicly_decodev src1 with
      | none => none
      | some (value, src2) =>
        settings_loop src2
          (if id = H2O_HTTP3_SETTINGS_HEADER_TABLE_SIZE then value % 2 ^ 32
           else header_table_size)
termination_by src.length
decreasing_by
  have a := ptls_decode16_consumes h16
  have b := quicly_decodev_consumes hv
  omega

/-- `h2o_http3_handle_settings_frame`.  The connection state is represented
by its `qpack.enc` slot, the only field the function touches (the function
asserts `!has_received_settings(conn)`, i.e. `enc = none`, on entry).  On
success the encoder is created exactly once, with the negotiated table size
and max-blocked-streams 100; on the Malformed path no encoder is created. -/
def h2o_http3_handle_settings_frame (enc : Option QpackEncoder)
    (payload : List Nat) : Except H3Err Unit × Option QpackEncoder :=
  match settings_loop payload H2O_HTTP3_DEFAULT_HEADER_TABLE_SIZE with
  | none => (Except.error (H3Err.malformed_frame H2O_HTTP3_FRAME_TYPE_SETTINGS), enc)
  | some hts => (Except.ok (), some ⟨hts, 100⟩)

/-- Specification-side reading of a SETTINGS payload: the list of
`{id: u16, value: varint}` pairs it encodes, or `none` when a pair is
truncated. -/
def settings_pairs (src : List Nat) : Option (List (Nat × Nat)) :=
  if src = [] then some []
  else
    match h16 : ptls_decode16 src with
    | none => none
    | some (id, src1) =>
      match hv : quicly_decodev src1 with
      | none => none
      | some (value, src2) =>
        (settings_pairs src2).map (fun l => (id, value) :: l)
termination_by src.length
decreasing_by
  have a := ptls_decode16_consumes h16
  have b := quicly_decodev_consumes hv
  omega

/-- Specification-side accumulator: the value a `{id, value}` pair leaves in
the header-table-size register. -/
def settings_step (a : Nat) (p : Nat × Nat) : Nat :=
  if p.1 = H2O_HTTP3_SETTINGS_HEADER_TABLE_SIZE then p.2 % 2 ^ 32 else a

theorem settings_loop_step (src : List Nat) (acc : Nat) (hsrc : ¬ src = []) :
    settings_loop src acc =
      match ptls_decode16 src with
      | none => none
      | some (id, src1) =>
        match quicly_decodev src1 with
        | none => none
        | some (value, src2) =>
          settings_loop src2
            (if id = H2O_HTTP3_SETTINGS_HEADER_TABLE_SIZE then value % 2 ^ 32
             else acc) := by
  rw [settings_loop, if_neg hsrc]
  split
  · rename_i heq
    rw [heq]
  · rename_i id src1 heq
    rw [heq]
    split
    · rename_i heq2
      simp [heq2]
    · rename_i value src2 heq2
      simp [heq2]

theorem settings_pairs_step (src : List Nat) (hsrc : ¬ src = []) :
    settings_pairs src =
      match ptls_decode16 src with
      | none => none
      | some (id, src1) =>
        match quicly_decodev src1 with
        | none => none
        | some (value, src2) =>
          (settings_pairs src2).map (fun l => (id, value) :: l) := by
  rw [settings_pairs, if_neg hsrc]
  split
  · rename_i heq
    rw [heq]
  · rename_i id src1 heq
    rw [heq]
    split
    · rename_i heq2
      simp [heq2]
    · rename_i value src2 heq2
      simp [heq2]

theorem settings_loop_spec (n : Nat) : ∀ src : List Nat, src.length ≤ n → ∀ acc,
    settings_loop src acc =
      (settings_pairs src).map (fun prs => prs.foldl settings_step acc) := by
  induction n with
  | zero =>
    intro src hlen acc
    have hnil : src = [] := List.eq_nil_of_length_eq_zero (by omega)
    subst hnil
    rw [settings_loop, settings_pairs]
    simp
  | succ n ih =>
    intro src hlen acc
    by_cases hsrc : src = []
    · subst hsrc
      rw [settings_loop, settings_pairs]
      simp
    · rw [settings_loop_step src acc hsrc, settings_pairs_step src hsrc]
      rcases h16 : ptls_decode16 src with _ | ⟨id, src1⟩
      · simp [h16]
      · rcases hv : quicly_decodev src1 with _ | ⟨value, src2⟩
        · simp [h16, hv]
        · have hl1 := ptls_decode16_consumes h16
          have hl2 := quicly_decodev_consumes hv
          simp only [h16, hv]
          rw [ih src2 (by omega)]
          rcases hp : settings_pairs src2 with _ | prs
          · simp
          · simp [settings_step]

/-- **C8**: `h2o_http3_handle_settings_frame` parses the payload as a
sequence of `{u16 id, varint value}` pairs until the payload ends, ignoring
all ids except HEADER_TABLE_SIZE (0x0001), whose (last) value overrides the
default 4096; a truncated id or truncated varint yields
MALFORMED_FRAME(SETTINGS) and no encoder is created; on success the QPACK
encoder is instantiated exactly once, with the negotiated table size and
max-blocked-streams 100. -/
theorem c8_settings_frame_contract (enc : Option QpackEncoder)
    (payload : List Nat) :
    h2o_http3_handle_settings_frame enc payload =
      match settings_pairs payload with
      | none =>
        (Except.error (H3Err.malformed_frame H2O_HTTP3_FRAME_TYPE_SETTINGS), enc)
      | some prs =>
        (Except.ok (),
         some ⟨prs.foldl settings_step H2O_HTTP3_DEFAULT_HEADER_TABLE_SIZE,
               100⟩) := by
  unfold h2o_http3_handle_settings_frame
  rw [settings_loop_spec payload.length payload (le_refl _)
      H2O_HTTP3_DEFAULT_HEADER_TABLE_SIZE]
  rcases hp : settings_pairs payload with _ | prs
  · simp
  · simp

/-- A decoded QUIC packet as the batching logic observes it: its destination
CID (`packet.cid.dest.encrypted`, compared bytewise via `h2o_memis`) plus a
sequence number that keeps distinct packets distinguishable. -/
structure Pkt where
  cid : Nat
  seq : Nat
deriving DecidableEq, Repr

/-- One UDP datagram: the peer address it came from and the packets
`quicly_decode_packet` yields from its payload in order (the undecodable
tail, on which decode returns `SIZE_MAX` and the loop breaks, is omitted). -/
structure Dgram where
  addr : Nat
  pkts : List Pkt
deriving DecidableEq, Repr

/-- One `process_packets` call: the peer address argument and the packet
batch, each packet tagged with the address of the datagram that carried it
(a ghost tag; it does not influence control flow). -/
structure PGroup where
  addr : Nat
  pkts : List (Nat × Pkt)
deriving DecidableEq, Repr

/-- Modelled from the spec: `h2o_socket_compare_address` lives in
`lib/common/socket.c`, outside this repository.  The spec's "flush whenever
the peer address changes between datagrams" fixes its reading here: it is
truthy exactly when the two addresses are equal. -/
def h2o_socket_compare_address (a b : Nat) : Bool := a == b

/-- `sizeof(packets) / sizeof(packets[0])` in `on_read`. -/
def PACKETS_BATCH_CAP : Nat := 64

/-- The per-datagram decode loop of `on_read`: each decoded packet is placed
at `packets[packet_index]`, and the batch is flushed — including the packet
just decoded — when it fills (`packet_index == 63`) or when the new packet's
destination CID differs from `packets[0]`'s (when `packet_index == 0` the
comparison is of the packet with itself). -/
def decode_loop (a : Nat) (pkts : List Pkt) (batch : List (Nat × Pkt))
    (acc : List PGroup) : List PGroup × List (Nat × Pkt) :=
  match pkts with
  | [] => (acc, batch)
  | p :: rest =>
    if batch.length = PACKETS_BATCH_CAP - 1 ∨
       ¬ (batch.length = 0 ∨
          (match batch with
           | [] => true
           | b :: _ => b.2.cid == p.cid) = true) then
      decode_loop a rest [] (acc ++ [⟨a, batch ++ [(a, p)]⟩])
    else
      decode_loop a rest (batch ++ [(a, p)]) acc

/-- The datagram walk of `on_read`: before each datagram other than the
first, a nonempty batch is flushed (to the previous datagram's address) if
the peer address changed; then the datagram's packets run through
`decode_loop`. -/
def on_read_dgrams : List Dgram → Option Nat → List (Nat × Pkt) → List PGroup →
    List PGroup × List (Nat × Pkt) × Option Nat
  | [], prev, batch, acc => (acc, batch, prev)
  | d :: rest, prev, batch, acc =>
    let st : List PGroup × List (Nat × Pkt) :=
      match prev with
      | some pa =>
        if ¬ batch = [] ∧ ¬ h2o_socket_compare_address pa d.addr = true then
          (acc ++ [⟨pa, batch⟩], [])
        else (acc, batch)
      | none => (acc, batch)
    let st2 := decode_loop d.addr d.pkts st.2 st.1
    on_read_dgrams rest (some d.addr) st2.2 st2.1

/-- The full grouping pass of `on_read` over one burst of datagrams: the
sequence of `process_packets` calls it performs, with the trailing nonempty
batch flushed to the last datagram's address. -/
def on_read_model (dgrams : List Dgram) : List PGroup :=
  match on_read_dgrams dgrams none [] [] with
  | (acc, [], _) => acc
  | (acc, b :: bs, some pa) => acc ++ [⟨pa, b :: bs⟩]
  | (acc, _ :: _, none) => acc

/-- All packets in the batch are tagged with address `a`. -/
def addrUniformB (a : Nat) (l : List (Nat × Pkt)) : Bool :=
  l.all (fun x => x.1 == a)

/-- All packets in the batch share the first packet's destination CID. -/
def cidUniformB : List (Nat × Pkt) → Bool
  | [] => true
  | x :: rest => rest.all (fun y => y.2.cid == x.2.cid)

/-- All packets except possibly the last share the first packet's
destination CID. -/
def cidGroupedB : List (Nat × Pkt) → Bool
  | [] => true
  | x :: rest => ((x :: rest).dropLast).all (fun y => y.2.cid == x.2.cid)

/-- The shape every `process_packets` call actually has: every packet comes
from a datagram of the call's peer address, all packets except possibly the
last share the first packet's destination CID, and there are at most 64
packets. -/
def goodGroup (g : PGroup) : Prop :=
  addrUniformB g.addr g.pkts = true ∧ cidGroupedB g.pkts = true ∧
  g.pkts.length ≤ PACKETS_BATCH_CAP

/-- **C6** fails on the code: one datagram from address 0 holding two
packets with destination CIDs 1 and 2 produces exactly one
`process_packets` call containing both packets — the CID-change flush
passes `packet_index + 1` and therefore includes the first differing-CID
packet in the flushed batch, so that call does not receive packets of
exactly one destination CID group. -/
theorem c6_counterexample_mixed_cid_call :
    on_read_model [Dgram.mk 0 [Pkt.mk 1 0, Pkt.mk 2 1]] =
      [PGroup.mk 0 [(0, Pkt.mk 1 0), (0, Pkt.mk 2 1)]] ∧
    (on_read_model [Dgram.mk 0 [Pkt.mk 1 0, Pkt.mk 2 1]]).map
        (fun g => cidUniformB g.pkts) =
      [false] :=
  ⟨by decide, by decide⟩

theorem dropLast_cons_append (x : Nat × Pkt) (r : List (Nat × Pkt))
    (z : Nat × Pkt) : (x :: (r ++ [z])).dropLast = x :: r := by
  have h : x :: (r ++ [z]) = (x :: r) ++ [z] := by simp
  rw [h, List.dropLast_concat]

theorem cidGroupedB_concat {batch : List (Nat × Pkt)} {z : Nat × Pkt}
    (h : cidUniformB batch = true) : cidGroupedB (batch ++ [z]) = true := by
  cases batch with
  | nil => rfl
  | cons x r =>
    show cidGroupedB (x :: (r ++ [z])) = true
    have hg : cidGroupedB (x :: (r ++ [z])) =
        ((x :: (r ++ [z])).dropLast).all (fun y => y.2.cid == x.2.cid) := rfl
    rw [hg, dropLast_cons_append]
    have h' : r.all (fun y => y.2.cid == x.2.cid) = true := h
    simp only [List.all_cons, h', Bool.and_true]
    simp

theorem cidGroupedB_of_uniform {batch : List (Nat × Pkt)}
    (h : cidUniformB batch = true) : cidGroupedB batch = true := by
  cases batch with
  | nil => rfl
  | cons x r =>
    show ((x :: r).dropLast).all (fun y => y.2.cid == x.2.cid) = true
    have h' : r.all (fun y => y.2.cid == x.2.cid) = true := h
    rw [List.all_eq_true] at h' ⊢
    intro y hy
    rcases List.mem_cons.mp (List.dropLast_subset _ hy) with rfl | hy2
    · simp
    · exact h' y hy2

theorem cidUniformB_concat {batch : List (Nat × Pkt)} {a : Nat} {p : Pkt}
    (h : cidUniformB batch = true)
    (hc : batch = [] ∨ ∀ x ∈ batch.head?, x.2.cid = p.cid) :
    cidUniformB (batch ++ [(a, p)]) = true := by
  cases batch with
  | nil => rfl
  | cons x r =>
    rcases hc with hc | hc
    · simp at hc
    · show (r ++ [(a, p)]).all (fun y => y.2.cid == x.2.cid) = true
      have h' : r.all (fun y => y.2.cid == x.2.cid) = true := h
      have hx : x.2.cid = p.cid := hc x (by simp)
      rw [List.all_append]
      have h2 : ([(a, p)]).all (fun y => y.2.cid == x.2.cid) = true := by
        simp [hx]
      rw [h', h2]
      rfl

theorem addrUniformB_concat {a : Nat} {batch : List (Nat × Pkt)} {p : Pkt}
    (h : addrUniformB a batch = true) :
    addrUniformB a (batch ++ [(a, p)]) = true := by
  simp only [addrUniformB, List.all_append] at *
  simp [h]

theorem decode_loop_good (a : Nat) (pkts : List Pkt) :
    ∀ (batch : List (Nat × Pkt)) (acc : List PGroup),
    addrUniformB a batch = true → cidUniformB batch = true →
    batch.length ≤ PACKETS_BATCH_CAP - 1 →
    (∀ g ∈ acc, goodGroup g) →
    ((∀ g ∈ (decode_loop a pkts batch acc).1, goodGroup g) ∧
     addrUniformB a (decode_loop a pkts batch acc).2 = true ∧
     cidUniformB (decode_loop a pkts batch acc).2 = true ∧
     (decode_loop a pkts batch acc).2.length ≤ PACKETS_BATCH_CAP - 1) := by
  induction pkts with
  | nil =>
    intro batch acc h1 h2 h3 h4
    simp only [decode_loop]
    exact ⟨h4, h1, h2, h3⟩
  | cons p rest ih =>
    intro batch acc h1 h2 h3 h4
    simp only [decode_loop]
    split
    · rename_i hc
      apply ih
      · rfl
      · rfl
      · simp [PACKETS_BATCH_CAP]
      · intro g hg
        rcases List.mem_append.mp hg with hg | hg
        · exact h4 g hg
        · have hgeq : g = ⟨a, batch ++ [(a, p)]⟩ := by
            simpa using hg
          subst hgeq
          refine ⟨addrUniformB_concat h1, cidGroupedB_concat h2, ?_⟩
          show (batch ++ [(a, p)]).length ≤ PACKETS_BATCH_CAP
          simp [PACKETS_BATCH_CAP] at h3 ⊢
          omega
    · rename_i hc
      push_neg at hc
      have hcc : batch = [] ∨ ∀ x ∈ batch.head?, x.2.cid = p.cid := by
        cases batch with
        | nil => exact Or.inl rfl
        | cons x r =>
          rcases hc.2 with h0 | hm
          · simp at h0
          · right
            intro y hy
            have hyx : x = y := by simpa using hy
            subst hyx
            simpa using hm
      apply ih
      · exact addrUniformB_concat h1
      · exact cidUniformB_concat h2 hcc
      · have hne := hc.1
        simp [PACKETS_BATCH_CAP] at h3 hne ⊢
        omega
      · exact h4

/-- The invariant `on_read_dgrams` maintains between datagrams: before the
first datagram the batch is empty; afterwards the batch is address-uniform
for the previous datagram's address, CID-uniform, and below the cap. -/
def prevInv : Option Nat → List (Nat × Pkt) → Prop
  | none, batch => batch = []
  | some pa, batch =>
      addrUniformB pa batch = true ∧ cidUniformB batch = true ∧
      batch.length ≤ PACKETS_BATCH_CAP - 1

theorem on_read_dgrams_good (dgrams : List Dgram) :
    ∀ prev batch acc,
    prevInv prev batch →
    (∀ g ∈ acc, goodGroup g) →
    ((∀ g ∈ (on_read_dgrams dgrams prev batch acc).1, goodGroup g) ∧
     prevInv (on_read_dgrams dgrams prev batch acc).2.2
       (on_read_dgrams dgrams prev batch acc).2.1) := by
  induction dgrams with
  | nil =>
    intro prev batch acc hinv hacc
    simp only [on_read_dgrams]
    exact ⟨hacc, hinv⟩
  | cons d rest ih =>
    intro prev batch acc hinv hacc
    cases prev with
    | none =>
      have hb : batch = [] := hinv
      subst hb
      simp only [on_read_dgrams]
      have hd := decode_loop_good d.addr d.pkts [] acc rfl rfl
        (by simp [PACKETS_BATCH_CAP]) hacc
      exact ih (some d.addr) _ _ ⟨hd.2.1, hd.2.2.1, hd.2.2.2⟩ hd.1
    | some pa =>
      obtain ⟨ha, hcid, hlen⟩ := hinv
      simp only [on_read_dgrams]
      by_cases hflush : ¬ batch = [] ∧
          ¬ h2o_socket_compare_address pa d.addr = true
      · rw [if_pos hflush]
        have hacc2 : ∀ g ∈ acc ++ [⟨pa, batch⟩], goodGroup g := by
          intro g hg
          rcases List.mem_append.mp hg with hg | hg
          · exact hacc g hg
          · have hgeq : g = ⟨pa, batch⟩ := by simpa using hg
            subst hgeq
            refine ⟨ha, cidGroupedB_of_uniform hcid, ?_⟩
            simp [PACKETS_BATCH_CAP] at hlen ⊢
            omega
        have hd := decode_loop_good d.addr d.pkts [] (acc ++ [⟨pa, batch⟩])
          rfl rfl (by simp [PACKETS_BATCH_CAP]) hacc2
        exact ih (some d.addr) _ _ ⟨hd.2.1, hd.2.2.1, hd.2.2.2⟩ hd.1
      · rw [if_neg hflush]
        have ha2 : addrUniformB d.addr batch = true := by
          by_cases hb : batch = []
          · subst hb
            rfl
          · have hcmp : h2o_socket_compare_address pa d.addr = true := by
              by_contra hh
              exact hflush ⟨hb, hh⟩
            have hpa : pa = d.addr := by
              simpa [h2o_socket_compare_address] using hcmp
            subst hpa
            exact ha
        have hd := decode_loop_good d.addr d.pkts batch acc ha2 hcid hlen hacc
        exact ih (some d.addr) _ _ ⟨hd.2.1, hd.2.2.1, hd.2.2.2⟩ hd.1

/-- **C6 (amended)**: the batch is flushed on a peer-address change, on a
destination-CID change, and when the batch fills, but the CID-change flush
passes `packet_index + 1` packets and therefore includes the first
differing-CID packet in the flushed batch.  Consequently every call to
`process_packets` receives at most 64 packets, all originating from
datagrams of the call's single peer address, and all of them except
possibly the last share the first packet's destination CID (the last one
differs exactly at a CID-change flush). -/
theorem c6_amended_batch_groups (dgrams : List Dgram) (g : PGroup)
    (hg : g ∈ on_read_model dgrams) : goodGroup g := by
  have h := on_read_dgrams_good dgrams none [] [] rfl (by simp)
  unfold on_read_model at hg
  rcases hr : on_read_dgrams dgrams none [] [] with ⟨acc, batch, prev⟩
  rw [hr] at hg h
  obtain ⟨hgood, hinv⟩ := h
  cases batch with
  | nil =>
    simp only at hg
    exact hgood g hg
  | cons b bs =>
    cases prev with
    | none =>
      exact absurd hinv (by simp [prevInv])
    | some pa =>
      simp only at hg hinv
      rcases List.mem_append.mp hg with hg2 | hg2
      · exact hgood g hg2
      · have hgeq : g = ⟨pa, b :: bs⟩ := by simpa using hg2
        subst hgeq
        obtain ⟨ha, hcid, hlen⟩ := hinv
        refine ⟨ha, cidGroupedB_of_uniform hcid, ?_⟩
        simp [PACKETS_BATCH_CAP] at hlen ⊢
        omega

theorem c6_amended_batch_groups_witness :
    goodGroup (PGroup.mk 0 [(0, Pkt.mk 1 0), (0, Pkt.mk 2 1)]) :=
  c6_amended_batch_groups [Dgram.mk 0 [Pkt.mk 1 0, Pkt.mk 2 1]] _ (by decide)
